import Mathlib

/-!
Shallow embedding of the rbus RPC framework core: the wire codec
(MessagePack as used through rmp_serde with struct maps), the Tuple
argument list and Output conversion from src/protocol.rs, and the
redis server worker dispatch and worker pool from src/server/redis.rs.
-/

namespace Rbus

/-- CallError from protocol.rs: a remote handler failure carrying a message. -/
structure CallError where
  message : String
  deriving DecidableEq, Repr

/-- The Error enum of protocol.rs (thiserror variants). -/
inductive Error where
  | UnknownObject (s : String)
  | UnknownMethod (s : String)
  | ArgumentOutOfRange (i : Nat)
  | Protocol (s : String)
  | Encoding (s : String)
  | Call (e : CallError)
  deriving DecidableEq, Repr

/-- Display strings of the Error enum, from the thiserror attributes in protocol.rs. -/
def Error.display : Error → String
  | .UnknownObject s => "unknown object \x27" ++ s ++ "\x27"
  | .UnknownMethod s => "unknown method \x27" ++ s ++ "\x27"
  | .ArgumentOutOfRange i => "no argument found at index " ++ toString i
  | .Protocol s => "protocol error: " ++ s
  | .Encoding s => "encoding error: " ++ s
  | .Call e => "remote call failed with error \x27" ++ e.message ++ "\x27"

/-- ObjectID from protocol.rs: a name and a version string. -/
structure ObjectID where
  name : String
  version : String
  deriving DecidableEq, Repr

/-- The Display impl of ObjectID: name alone when the version is empty,
else name@version. -/
def ObjectID.toString (o : ObjectID) : String :=
  if o.version = "" then o.name else o.name ++ "@" ++ o.version

/-! MessagePack byte-level machinery. Bytes are modelled as naturals below 256;
multi-byte integers are big-endian as in the MessagePack format that
rmp_serde implements. -/

/-- Big-endian decomposition of a natural into exactly k bytes. -/
def beBytes : Nat → Nat → List Nat
  | 0, _ => []
  | k + 1, n => beBytes k (n / 256) ++ [n % 256]

/-- Big-endian recomposition of a byte list into a natural. -/
def beVal (bs : List Nat) : Nat :=
  bs.foldl (fun a b => a * 256 + b) 0

/-- Split off exactly k leading bytes of the input, failing when the input is
too short. -/
def takeExact (k : Nat) (l : List Nat) : Option (List Nat × List Nat) :=
  if k ≤ l.length then some (l.take k, l.drop k) else none

/-- Scalar wire values of the codec: nil, booleans, nonnegative integers,
strings (as UTF-8 byte lists) and binary buffers (serde ByteBuf). -/
inductive Scalar where
  | snil
  | sbool (b : Bool)
  | sint (n : Nat)
  | sstr (s : List Nat)
  | sbin (b : List Nat)
  deriving DecidableEq, Repr

/-- Representability bounds the Rust side guarantees: integers fit in u64,
string and buffer lengths fit in u32 (the widest MessagePack length field). -/
def Scalar.wf : Scalar → Bool
  | .sint n => decide (n < 2 ^ 64)
  | .sstr s => decide (s.length < 2 ^ 32)
  | .sbin b => decide (b.length < 2 ^ 32)
  | _ => true

/-- MessagePack encoding of a nonnegative integer, smallest format first,
as rmp writes it: positive fixint, uint8, uint16, uint32, uint64. -/
def encodeInt (n : Nat) : List Nat :=
  if n < 128 then [n]
  else if n < 256 then [0xcc, n]
  else if n < 65536 then 0xcd :: beBytes 2 n
  else if n < 4294967296 then 0xce :: beBytes 4 n
  else 0xcf :: beBytes 8 n

/-- MessagePack string header: fixstr, str8, str16 or str32. -/
def encodeStrHeader (len : Nat) : List Nat :=
  if len < 32 then [0xa0 + len]
  else if len < 256 then [0xd9, len]
  else if len < 65536 then 0xda :: beBytes 2 len
  else 0xdb :: beBytes 4 len

/-- MessagePack string encoding: header then raw bytes. -/
def encodeStr (s : List Nat) : List Nat :=
  encodeStrHeader s.length ++ s

/-- MessagePack binary encoding: bin8, bin16 or bin32 header then raw bytes. -/
def encodeBin (b : List Nat) : List Nat :=
  if b.length < 256 then 0xc4 :: b.length :: b
  else if b.length < 65536 then 0xc5 :: (beBytes 2 b.length ++ b)
  else 0xc6 :: (beBytes 4 b.length ++ b)

/-- MessagePack encoding of a scalar. -/
def encodeScalar : Scalar → List Nat
  | .snil => [0xc0]
  | .sbool false => [0xc2]
  | .sbool true => [0xc3]
  | .sint n => encodeInt n
  | .sstr s => encodeStr s
  | .sbin b => encodeBin b

/-- MessagePack string decoder: accepts fixstr, str8, str16 and str32. -/
def decodeStr : List Nat → Option (List Nat × List Nat)
  | [] => none
  | b :: rest =>
    if 0xa0 ≤ b ∧ b ≤ 0xbf then takeExact (b - 0xa0) rest
    else if b = 0xd9 then
      match rest with
      | l :: rest2 => takeExact l rest2
      | [] => none
    else if b = 0xda then
      match takeExact 2 rest with
      | some (lb, rest2) => takeExact (beVal lb) rest2
      | none => none
    else if b = 0xdb then
      match takeExact 4 rest with
      | some (lb, rest2) => takeExact (beVal lb) rest2
      | none => none
    else none

/-- MessagePack scalar decoder, dispatching on the leading tag byte. -/
def decodeScalar : List Nat → Option (Scalar × List Nat)
  | [] => none
  | b :: rest =>
    if b < 0x80 then some (.sint b, rest)
    else if b = 0xc0 then some (.snil, rest)
    else if b = 0xc2 then some (.sbool false, rest)
    else if b = 0xc3 then some (.sbool true, rest)
    else if b = 0xcc then
      match rest with
      | n :: rest2 => some (.sint n, rest2)
      | [] => none
    else if b = 0xcd then
      match takeExact 2 rest with
      | some (nb, rest2) => some (.sint (beVal nb), rest2)
      | none => none
    else if b = 0xce then
      match takeExact 4 rest with
      | some (nb, rest2) => some (.sint (beVal nb), rest2)
      | none => none
    else if b = 0xcf then
      match takeExact 8 rest with
      | some (nb, rest2) => some (.sint (beVal nb), rest2)
      | none => none
    else if b = 0xc4 then
      match rest with
      | l :: rest2 =>
        match takeExact l rest2 with
        | some (bs, rest3) => some (.sbin bs, rest3)
        | none => none
      | [] => none
    else if b = 0xc5 then
      match takeExact 2 rest with
      | some (lb, rest2) =>
        match takeExact (beVal lb) rest2 with
        | some (bs, rest3) => some (.sbin bs, rest3)
        | none => none
      | none => none
    else if b = 0xc6 then
      match takeExact 4 rest with
      | some (lb, rest2) =>
        match takeExact (beVal lb) rest2 with
        | some (bs, rest3) => some (.sbin bs, rest3)
        | none => none
      | none => none
    else
      match decodeStr (b :: rest) with
      | some (s, rest2) => some (.sstr s, rest2)
      | none => none

/-- Wire values: a scalar, or a record encoded as a MessagePack map with
string field names (rmp_serde with_struct_map, the codec configuration
protocol.rs uses for every struct). -/
inductive Value where
  | scalar (s : Scalar)
  | record (fields : List (List Nat × Scalar))
  deriving DecidableEq, Repr

/-- Wellformedness of a record field: bounded key length, wellformed value. -/
def fieldWf (kv : List Nat × Scalar) : Bool :=
  decide (kv.1.length < 2 ^ 32) && kv.2.wf

/-- Wellformedness of a wire value. -/
def Value.wf : Value → Bool
  | .scalar s => s.wf
  | .record fs => decide (fs.length < 2 ^ 32) && fs.all fieldWf

/-- MessagePack map header: fixmap, map16 or map32. -/
def encodeMapHeader (n : Nat) : List Nat :=
  if n < 16 then [0x80 + n]
  else if n < 65536 then 0xde :: beBytes 2 n
  else 0xdf :: beBytes 4 n

/-- Encoding of record fields: key string then value, in order. -/
def encodeFields : List (List Nat × Scalar) → List Nat
  | [] => []
  | (k, v) :: fs => encodeStr k ++ (encodeScalar v ++ encodeFields fs)

/-- MessagePack encoding of a wire value. -/
def encodeValue : Value → List Nat
  | .scalar s => encodeScalar s
  | .record fs => encodeMapHeader fs.length ++ encodeFields fs

/-- Decoder for exactly k record fields. -/
def decodeFields : Nat → List Nat → Option (List (List Nat × Scalar) × List Nat)
  | 0, input => some ([], input)
  | k + 1, input =>
    match decodeStr input with
    | none => none
    | some (key, rest1) =>
      match decodeScalar rest1 with
      | none => none
      | some (v, rest2) =>
        match decodeFields k rest2 with
        | none => none
        | some (fs, rest3) => some ((key, v) :: fs, rest3)

/-- MessagePack decoder for a wire value: map tags first, else scalar. -/
def decodeValue : List Nat → Option (Value × List Nat)
  | [] => none
  | b :: rest =>
    if 0x80 ≤ b ∧ b ≤ 0x8f then
      match decodeFields (b - 0x80) rest with
      | some (fs, rest2) => some (.record fs, rest2)
      | none => none
    else if b = 0xde then
      match takeExact 2 rest with
      | some (cb, rest2) =>
        match decodeFields (beVal cb) rest2 with
        | some (fs, rest3) => some (.record fs, rest3)
        | none => none
      | none => none
    else if b = 0xdf then
      match takeExact 4 rest with
      | some (cb, rest2) =>
        match decodeFields (beVal cb) rest2 with
        | some (fs, rest3) => some (.record fs, rest3)
        | none => none
      | none => none
    else
      match decodeScalar (b :: rest) with
      | some (s, rest2) => some (.scalar s, rest2)
      | none => none

/-- The wire type a caller of Tuple::at expects its argument to decode into. -/
inductive Ty where
  | tnil
  | tbool
  | tint
  | tstr
  | tbin
  | trecord
  deriving DecidableEq, Repr

/-- The wire type of a scalar. -/
def Scalar.ty : Scalar → Ty
  | .snil => .tnil
  | .sbool _ => .tbool
  | .sint _ => .tint
  | .sstr _ => .tstr
  | .sbin _ => .tbin

/-- The wire type of a value. -/
def Value.ty : Value → Ty
  | .scalar s => s.ty
  | .record _ => .trecord

/-- A Rust value handed to serde: either it serializes to a wire value, or
its Serialize impl fails with an error message. -/
inductive SerVal where
  | good (v : Value)
  | bad (msg : String)

/-- The serde serialization step inside encode (protocol.rs line 74). -/
def serialize : SerVal → Except String (List Nat)
  | .good v => .ok (encodeValue v)
  | .bad m => .error m

/-- encode from protocol.rs lines 69-78: serialize into a buffer, mapping a
serialization failure to Error::Encoding of its message. -/
def encode (o : SerVal) : Except Error (List Nat) :=
  match serialize o with
  | .ok b => .ok b
  | .error e => .error (.Encoding e)

/-- Tuple from protocol.rs: a vector of independently encoded blobs. -/
abbrev Tuple := List (List Nat)

/-- Tuple::add (protocol.rs lines 96-102): push encode(o), with the question
mark operator returning the encoding error before any mutation. The pair is
the tuple after the call together with the returned error, if any. -/
def Tuple.add (t : Tuple) (o : SerVal) : Tuple × Option Error :=
  match encode o with
  | .error e => (t, some e)
  | .ok b => (t ++ [b], none)

/-- Tuple::at (protocol.rs lines 85-94): bounds check first, then decode the
single blob at index i into the type the caller expects; a shape mismatch is
an Encoding error. -/
def Tuple.atIndex (t : Tuple) (i : Nat) (expected : Ty) : Except Error Value :=
  if i ≥ t.length then .error (.ArgumentOutOfRange i)
  else
    match decodeValue (t.getD i []) with
    | some (v, _) => if Value.ty v = expected then .ok v else .error (.Encoding "type mismatch")
    | none => .error (.Encoding "invalid data")

/-- Output from protocol.rs: encoded return data and an optional CallError. -/
structure Output where
  data : List Nat
  error : Option CallError
  deriving DecidableEq, Repr

/-- The From impl for Output (protocol.rs lines 197-215). The E parameter is
modelled by its display string. Ok(t) unwraps encode(t), which panics when
encoding fails: the panic is modelled as none. Err(err) yields empty data and
a CallError carrying the display string. -/
def Output.fromResult : Except String SerVal → Option Output
  | .ok t =>
    match encode t with
    | .ok d => some { data := d, error := none }
    | .error _ => none
  | .error err => some { data := [], error := some { message := err } }

/-! The server side, from src/server/redis.rs. The request module it uses is
absent from the sources; the shapes of its Request and Response are taken
from their construction and field uses inside redis.rs itself. -/

/-- Request as used by server/redis.rs (id, object, method, inputs, reply_to). -/
structure RRequest where
  id : String
  object : ObjectID
  method : String
  inputs : Tuple
  replyTo : String

/-- Response as constructed in Worker::work (redis.rs lines 148-152): an id,
an arguments tuple (Arguments::new() is empty) and an optional error string. -/
structure RResponse where
  id : String
  arguments : Tuple
  error : Option String
  deriving DecidableEq, Repr

/-- A registered service: its dispatch function from request to response. -/
abbrev Service := RRequest → RResponse

/-- The Routers map (redis.rs line 14), modelled as an association list. -/
abbrev Routers := List (String × Service)

/-- HashMap::get on the Routers map. -/
def lookupRouter : Routers → String → Option Service
  | [], _ => none
  | (k, s) :: rest, key => if k = key then some s else lookupRouter rest key

/-- The dispatch step of Worker::work (redis.rs lines 146-153): look the
object's canonical string up in the routers; on a hit run the service, on a
miss build the fixed unknown-module response. The boolean records whether a
registered handler was invoked. -/
def workerDispatch (routers : Routers) (message : RRequest) : RResponse × Bool :=
  match lookupRouter routers (ObjectID.toString message.object) with
  | some service => (service message, true)
  | none =>
    ({ id := message.id, arguments := [], error := some "unknown module" }, false)

/-- The worker-count acceptance check of Server::new (redis.rs line 31):
assert workers > 1. -/
def serverNewWorkersOk (workers : Nat) : Bool :=
  decide (workers > 1)

/-- Modelled from the spec: construction enforces workers >= 1, which is also
what the assert message "workers must be at least 1" in Server::new states. -/
def specWorkersOk (workers : Nat) : Bool :=
  decide (workers ≥ 1)

/-- The spawn loop of Server::run (redis.rs lines 73-76): for each index in
0..workers-1 one worker task is spawned; one list entry per spawned unit. -/
def runSpawnedWorkers (workers : Nat) : List Nat :=
  List.range (workers - 1)

/-- Broker commands a worker issues when replying. -/
inductive BrokerCmd where
  | rpush (key : String) (payload : List Nat)
  | expire (key : String) (ttl : Int)
  deriving DecidableEq, Repr

/-- RESPONSE_TTL from redis.rs line 12. -/
def RESPONSE_TTL : Int := 5 * 60

/-- The reply phase of Worker::work (redis.rs lines 165-185): RPUSH the
encoded response onto the key named by the response id; when the push
succeeds, immediately EXPIRE that key with RESPONSE_TTL. pushOk models
whether the RPUSH round trip succeeded. -/
def workerReply (responseId : String) (data : List Nat) (pushOk : Bool) : List BrokerCmd :=
  if pushOk then [.rpush responseId data, .expire responseId RESPONSE_TTL]
  else [.rpush responseId data]

/-! The worker pool of Server::run as a transition system: workers announce a
oneshot sender on the capacity-1 channel when idle, the dispatch loop
receives one sender before performing its blocking pop, then hands the
decoded request to that worker. -/

/-- State of one execution unit of the pool. -/
inductive WState where
  | idle
  | announced
  | busy
  deriving DecidableEq, Repr

/-- State of the central dispatch loop: waiting on the announcement channel,
or holding the acceptance token of worker i while popping the broker. -/
inductive LState (W : Nat) where
  | waiting
  | holding (i : Fin W)
  deriving DecidableEq

/-- Joint state of the pool: per-worker states and the loop state. -/
structure PoolState (W : Nat) where
  worker : Fin W → WState
  loop : LState W

/-- The pool right after Server::run spawns the workers: all idle, loop at
its first channel receive. -/
def PoolState.start (W : Nat) : PoolState W :=
  { worker := fun _ => WState.idle, loop := LState.waiting }

/-- The loop issues blocking pops only while holding an acceptance token. -/
def popEnabled {W : Nat} (s : PoolState W) : Prop :=
  ∃ i, s.loop = LState.holding i

/-- Transitions of the pool: a worker announces its oneshot sender (Worker::
work line 131), the loop receives one (Server::run line 78), the loop hands
a popped request over (line 105) making the worker busy, and a busy worker
finishes its dispatch and reply and loops back to idle. -/
inductive PoolStep (W : Nat) : PoolState W → PoolState W → Prop where
  | announce (s : PoolState W) (i : Fin W) (hw : s.worker i = WState.idle) :
      PoolStep W s { worker := Function.update s.worker i WState.announced, loop := s.loop }
  | recv (s : PoolState W) (i : Fin W) (hl : s.loop = LState.waiting)
      (hw : s.worker i = WState.announced) :
      PoolStep W s { worker := s.worker, loop := LState.holding i }
  | handoff (s : PoolState W) (i : Fin W) (hl : s.loop = LState.holding i) :
      PoolStep W s { worker := Function.update s.worker i WState.busy, loop := LState.waiting }
  | finish (s : PoolState W) (i : Fin W) (hw : s.worker i = WState.busy) :
      PoolStep W s { worker := Function.update s.worker i WState.idle, loop := s.loop }

/-- States the pool can reach from its start state. -/
abbrev PoolReachable (W : Nat) (s : PoolState W) : Prop :=
  Relation.ReflTransGen (PoolStep W) (PoolState.start W) s

/-- Number of simultaneously busy execution units. -/
def busyCount {W : Nat} (s : PoolState W) : Nat :=
  (Finset.univ.filter fun i => s.worker i = WState.busy).card

/-- Invariant: a held acceptance token always belongs to a worker that is
announced (awaiting its oneshot), hence not busy. -/
def holdingInv {W : Nat} (s : PoolState W) : Prop :=
  ∀ i : Fin W, s.loop = LState.holding i → s.worker i = WState.announced

/-- A sample record value with one present and one absent optional field. -/
def sampleRecord : Value :=
  Value.record [([97], Scalar.sint 1), ([98], Scalar.snil)]

/-- A concrete request for the unregistered object foo. -/
def fooRequest : RRequest :=
  { id := "r1"
    object := { name := "foo", version := "" }
    method := "m"
    inputs := []
    replyTo := "r1" }

/-! Helper lemmas about the byte machinery. -/

theorem beBytes_length (k : Nat) : ∀ n : Nat, (beBytes k n).length = k := by
  induction k with
  | zero => intro n; rfl
  | succ k ih =>
    intro n
    simp [beBytes, ih]

theorem beVal_beBytes (k : Nat) : ∀ n : Nat, n < 256 ^ k → beVal (beBytes k n) = n := by
  induction k with
  | zero =>
    intro n h
    simp at h
    simp [h, beBytes, beVal]
  | succ k ih =>
    intro n h
    have hdiv : n / 256 < 256 ^ k := by
      rw [Nat.div_lt_iff_lt_mul (by norm_num)]
      calc n < 256 ^ (k + 1) := h
        _ = 256 ^ k * 256 := by ring
    have hrec := ih (n / 256) hdiv
    simp only [beBytes, beVal, List.foldl_append, List.foldl_cons, List.foldl_nil]
    simp only [beVal] at hrec
    rw [hrec]
    omega

theorem takeExact_append (l rest : List Nat) :
    takeExact l.length (l ++ rest) = some (l, rest) := by
  simp [takeExact, List.take_left, List.drop_left]

theorem takeExact_append_of_length {k : Nat} {l : List Nat} (h : l.length = k)
    (rest : List Nat) : takeExact k (l ++ rest) = some (l, rest) := by
  subst h
  exact takeExact_append l rest

/-! Round-trip of the string codec. -/

theorem decodeStr_encodeStr (s rest : List Nat) (h : s.length < 2 ^ 32) :
    decodeStr (encodeStr s ++ rest) = some (s, rest) := by
  unfold encodeStr encodeStrHeader
  by_cases h1 : s.length < 32
  · rw [if_pos h1]
    show decodeStr ((0xa0 + s.length) :: (s ++ rest)) = some (s, rest)
    simp only [decodeStr]
    rw [if_pos ⟨by omega, by omega⟩]
    have hsub : 0xa0 + s.length - 0xa0 = s.length := by omega
    rw [hsub, takeExact_append]
  · by_cases h2 : s.length < 256
    · rw [if_neg h1, if_pos h2]
      show decodeStr (0xd9 :: (s.length :: (s ++ rest))) = some (s, rest)
      simp only [decodeStr, if_true]
      exact takeExact_append s rest
    · by_cases h3 : s.length < 65536
      · rw [if_neg h1, if_neg h2, if_pos h3, List.append_assoc]
        show decodeStr (0xda :: (beBytes 2 s.length ++ (s ++ rest))) = some (s, rest)
        simp only [decodeStr, if_true]
        simp only [takeExact_append_of_length (beBytes_length 2 s.length)]
        rw [beVal_beBytes 2 s.length (by norm_num; omega)]
        exact takeExact_append s rest
      · rw [if_neg h1, if_neg h2, if_neg h3, List.append_assoc]
        show decodeStr (0xdb :: (beBytes 4 s.length ++ (s ++ rest))) = some (s, rest)
        simp only [decodeStr, if_true]
        simp only [takeExact_append_of_length (beBytes_length 4 s.length)]
        rw [beVal_beBytes 4 s.length (by norm_num; omega)]
        exact takeExact_append s rest

theorem encodeStr_head (s : List Nat) :
    ∃ hb tl, encodeStr s = hb :: tl ∧ 0xa0 ≤ hb ∧ (hb ≤ 0xbf ∨ (0xd9 ≤ hb ∧ hb ≤ 0xdb)) := by
  unfold encodeStr encodeStrHeader
  by_cases h1 : s.length < 32
  · exact ⟨0xa0 + s.length, s, by rw [if_pos h1]; rfl, by omega, Or.inl (by omega)⟩
  · by_cases h2 : s.length < 256
    · exact ⟨0xd9, s.length :: s, by rw [if_neg h1, if_pos h2]; rfl, by omega, Or.inr (by omega)⟩
    · by_cases h3 : s.length < 65536
      · exact ⟨0xda, beBytes 2 s.length ++ s,
          by rw [if_neg h1, if_neg h2, if_pos h3]; rfl, by omega, Or.inr (by omega)⟩
      · exact ⟨0xdb, beBytes 4 s.length ++ s,
          by rw [if_neg h1, if_neg h2, if_neg h3]; rfl, by omega, Or.inr (by omega)⟩

theorem decodeScalar_encodeStr (s rest : List Nat) (h : s.length < 2 ^ 32) :
    decodeScalar (encodeStr s ++ rest) = some (Scalar.sstr s, rest) := by
  obtain ⟨hb, tl, he, hlo, hrange⟩ := encodeStr_head s
  have hcons : encodeStr s ++ rest = hb :: (tl ++ rest) := by rw [he]; rfl
  have hd := decodeStr_encodeStr s rest h
  rw [hcons] at hd ⊢
  have e1 : ¬(hb < 0x80) := by omega
  have e2 : hb ≠ 0xc0 := by omega
  have e3 : hb ≠ 0xc2 := by omega
  have e4 : hb ≠ 0xc3 := by omega
  have e5 : hb ≠ 0xcc := by omega
  have e6 : hb ≠ 0xcd := by omega
  have e7 : hb ≠ 0xce := by omega
  have e8 : hb ≠ 0xcf := by omega
  have e9 : hb ≠ 0xc4 := by omega
  have e10 : hb ≠ 0xc5 := by omega
  have e11 : hb ≠ 0xc6 := by omega
  simp only [decodeScalar]
  rw [if_neg e1, if_neg e2, if_neg e3, if_neg e4, if_neg e5, if_neg e6, if_neg e7,
    if_neg e8, if_neg e9, if_neg e10, if_neg e11, hd]

/-! Round-trip of the scalar codec. -/

theorem decodeScalar_encodeScalar (s : Scalar) (rest : List Nat) (h : s.wf = true) :
    decodeScalar (encodeScalar s ++ rest) = some (s, rest) := by
  cases s with
  | snil => rfl
  | sbool b => cases b <;> rfl
  | sint n =>
    simp only [Scalar.wf, decide_eq_true_eq] at h
    simp only [encodeScalar, encodeInt]
    by_cases h1 : n < 128
    · rw [if_pos h1]
      show decodeScalar (n :: rest) = some (.sint n, rest)
      simp only [decodeScalar]
      rw [if_pos h1]
    · by_cases h2 : n < 256
      · rw [if_neg h1, if_pos h2]
        show decodeScalar (0xcc :: (n :: rest)) = some (.sint n, rest)
        simp only [decodeScalar, if_true]
        norm_num
      · by_cases h3 : n < 65536
        · rw [if_neg h1, if_neg h2, if_pos h3]
          show decodeScalar (0xcd :: (beBytes 2 n ++ rest)) = some (.sint n, rest)
          simp only [decodeScalar, if_true]
          simp only [takeExact_append_of_length (beBytes_length 2 n)]
          rw [beVal_beBytes 2 n (by norm_num; omega)]
          norm_num
        · by_cases h4 : n < 4294967296
          · rw [if_neg h1, if_neg h2, if_neg h3, if_pos h4]
            show decodeScalar (0xce :: (beBytes 4 n ++ rest)) = some (.sint n, rest)
            simp only [decodeScalar, if_true]
            simp only [takeExact_append_of_length (beBytes_length 4 n)]
            rw [beVal_beBytes 4 n (by norm_num; omega)]
            norm_num
          · rw [if_neg h1, if_neg h2, if_neg h3, if_neg h4]
            show decodeScalar (0xcf :: (beBytes 8 n ++ rest)) = some (.sint n, rest)
            simp only [decodeScalar, if_true]
            simp only [takeExact_append_of_length (beBytes_length 8 n)]
            rw [beVal_beBytes 8 n (by norm_num; omega)]
            norm_num
  | sstr s2 =>
    simp only [Scalar.wf, decide_eq_true_eq] at h
    exact decodeScalar_encodeStr s2 rest h
  | sbin b =>
    simp only [Scalar.wf, decide_eq_true_eq] at h
    simp only [encodeScalar, encodeBin]
    by_cases h1 : b.length < 256
    · rw [if_pos h1]
      show decodeScalar (0xc4 :: (b.length :: (b ++ rest))) = some (.sbin b, rest)
      simp only [decodeScalar, if_true]
      simp only [takeExact_append]
      norm_num
    · by_cases h2 : b.length < 65536
      · rw [if_neg h1, if_pos h2]
        show decodeScalar (0xc5 :: ((beBytes 2 b.length ++ b) ++ rest)) = some (.sbin b, rest)
        rw [List.append_assoc]
        simp only [decodeScalar, if_true]
        simp only [takeExact_append_of_length (beBytes_length 2 b.length)]
        rw [beVal_beBytes 2 b.length (by norm_num; omega)]
        simp only [takeExact_append]
        norm_num
      · rw [if_neg h1, if_neg h2]
        show decodeScalar (0xc6 :: ((beBytes 4 b.length ++ b) ++ rest)) = some (.sbin b, rest)
        rw [List.append_assoc]
        simp only [decodeScalar, if_true]
        simp only [takeExact_append_of_length (beBytes_length 4 b.length)]
        rw [beVal_beBytes 4 b.length (by norm_num; omega)]
        simp only [takeExact_append]
        norm_num

/-! A scalar decode success implies the input did not start with a map tag,
so the value decoder lands in its scalar branch. -/

theorem decodeStr_none_of_tag (b : Nat) (rest : List Nat)
    (h1 : ¬(0xa0 ≤ b ∧ b ≤ 0xbf)) (h2 : b ≠ 0xd9) (h3 : b ≠ 0xda) (h4 : b ≠ 0xdb) :
    decodeStr (b :: rest) = none := by
  simp only [decodeStr]
  rw [if_neg h1, if_neg h2, if_neg h3, if_neg h4]

theorem decodeScalar_none_of_mapTag (b : Nat) (rest : List Nat)
    (h : (0x80 ≤ b ∧ b ≤ 0x8f) ∨ b = 0xde ∨ b = 0xdf) :
    decodeScalar (b :: rest) = none := by
  have hs : decodeStr (b :: rest) = none :=
    decodeStr_none_of_tag b rest (by omega) (by omega) (by omega) (by omega)
  have m1 : ¬(b < 0x80) := by omega
  have m2 : b ≠ 0xc0 := by omega
  have m3 : b ≠ 0xc2 := by omega
  have m4 : b ≠ 0xc3 := by omega
  have m5 : b ≠ 0xcc := by omega
  have m6 : b ≠ 0xcd := by omega
  have m7 : b ≠ 0xce := by omega
  have m8 : b ≠ 0xcf := by omega
  have m9 : b ≠ 0xc4 := by omega
  have m10 : b ≠ 0xc5 := by omega
  have m11 : b ≠ 0xc6 := by omega
  simp only [decodeScalar]
  rw [if_neg m1, if_neg m2, if_neg m3, if_neg m4, if_neg m5, if_neg m6, if_neg m7,
    if_neg m8, if_neg m9, if_neg m10, if_neg m11, hs]

theorem decodeValue_of_decodeScalar {input : List Nat} {s : Scalar} {r : List Nat}
    (h : decodeScalar input = some (s, r)) :
    decodeValue input = some (Value.scalar s, r) := by
  cases input with
  | nil => exact Option.noConfusion h
  | cons b rest =>
    by_cases hm : (0x80 ≤ b ∧ b ≤ 0x8f) ∨ b = 0xde ∨ b = 0xdf
    · rw [decodeScalar_none_of_mapTag b rest hm] at h
      exact Option.noConfusion h
    · simp only [decodeValue]
      rw [if_neg (by omega), if_neg (by omega), if_neg (by omega), h]

/-! Round-trip of the record codec. -/

theorem decodeFields_encodeFields :
    ∀ (fs : List (List Nat × Scalar)) (rest : List Nat), fs.all fieldWf = true →
      decodeFields fs.length (encodeFields fs ++ rest) = some (fs, rest) := by
  intro fs
  induction fs with
  | nil => intro rest _; rfl
  | cons kv fs ih =>
    intro rest h
    obtain ⟨k, v⟩ := kv
    simp only [List.all_cons, Bool.and_eq_true, fieldWf, decide_eq_true_eq] at h
    obtain ⟨⟨hk, hv⟩, hfs⟩ := h
    simp only [encodeFields, List.length_cons, decodeFields, List.append_assoc]
    rw [decodeStr_encodeStr k _ hk]
    simp only []
    rw [decodeScalar_encodeScalar v _ hv]
    simp only []
    rw [ih _ hfs]

theorem decodeValue_encodeValue (v : Value) (rest : List Nat) (h : v.wf = true) :
    decodeValue (encodeValue v ++ rest) = some (v, rest) := by
  cases v with
  | scalar s =>
    exact decodeValue_of_decodeScalar (decodeScalar_encodeScalar s rest h)
  | record fs =>
    simp only [Value.wf, Bool.and_eq_true, decide_eq_true_eq] at h
    obtain ⟨hn, hfs⟩ := h
    simp only [encodeValue, encodeMapHeader]
    by_cases h1 : fs.length < 16
    · rw [if_pos h1]
      show decodeValue ((0x80 + fs.length) :: (encodeFields fs ++ rest)) =
        some (.record fs, rest)
      simp only [decodeValue]
      rw [if_pos ⟨by omega, by omega⟩]
      have hsub : 0x80 + fs.length - 0x80 = fs.length := by omega
      rw [hsub, decodeFields_encodeFields fs rest hfs]
    · by_cases h2 : fs.length < 65536
      · rw [if_neg h1, if_pos h2, List.append_assoc]
        show decodeValue (0xde :: (beBytes 2 fs.length ++ (encodeFields fs ++ rest))) =
          some (.record fs, rest)
        simp only [decodeValue, if_true]
        rw [if_neg (by omega)]
        simp only [takeExact_append_of_length (beBytes_length 2 fs.length)]
        rw [beVal_beBytes 2 fs.length (by norm_num; omega)]
        rw [decodeFields_encodeFields fs rest hfs]
      · rw [if_neg h1, if_neg h2, List.append_assoc]
        show decodeValue (0xdf :: (beBytes 4 fs.length ++ (encodeFields fs ++ rest))) =
          some (.record fs, rest)
        simp only [decodeValue, if_true]
        rw [if_neg (by omega)]
        simp only [takeExact_append_of_length (beBytes_length 4 fs.length)]
        rw [beVal_beBytes 4 fs.length (by norm_num; omega)]
        rw [decodeFields_encodeFields fs rest hfs]
        norm_num

/-! Worker-pool invariant lemmas. -/

theorem holdingInv_start (W : Nat) : holdingInv (PoolState.start W) := by
  intro i h
  exact absurd h (by simp [PoolState.start])

theorem holdingInv_step {W : Nat} {s s2 : PoolState W} (hinv : holdingInv s)
    (hstep : PoolStep W s s2) : holdingInv s2 := by
  cases hstep with
  | announce i hw =>
    intro j hj
    have ha := hinv j hj
    by_cases hij : j = i
    · subst hij
      show Function.update s.worker j WState.announced j = WState.announced
      rw [Function.update_same]
    · show Function.update s.worker i WState.announced j = WState.announced
      rw [Function.update_noteq hij]
      exact ha
  | recv i hl hw =>
    intro j hj
    have hj2 : LState.holding i = LState.holding j := hj
    injection hj2 with hij
    subst hij
    exact hw
  | handoff i hl =>
    intro j hj
    exact absurd hj (by simp)
  | finish i hw =>
    intro j hj
    have ha := hinv j hj
    by_cases hij : j = i
    · subst hij
      rw [hw] at ha
      exact absurd ha (by decide)
    · show Function.update s.worker i WState.idle j = WState.announced
      rw [Function.update_noteq hij]
      exact ha

theorem holdingInv_reachable {W : Nat} {s : PoolState W} (h : PoolReachable W s) :
    holdingInv s := by
  induction h with
  | refl => exact holdingInv_start W
  | tail _ hstep ih => exact holdingInv_step ih hstep

/-! The ten claims. -/

/-- Claim C1, counterexample: dispatching a request whose object string foo
is not registered yields the outer error string "unknown module" — not the
display string of Error::UnknownObject that the claim demands. -/
theorem unknown_object_counterexample :
    (workerDispatch [] fooRequest).1.error = some "unknown module" ∧
    Error.display (Error.UnknownObject "foo") = "unknown object \x27foo\x27" ∧
    (workerDispatch [] fooRequest).1.error ≠
      some (Error.display (Error.UnknownObject "foo")) := by
  refine ⟨rfl, rfl, by decide⟩

/-- Claim C1 as amended: when the object's canonical string is not a key of
the registry, the worker responds with the request id, an empty arguments
tuple and outer error "unknown module", and invokes no handler. -/
theorem unknown_object_response (routers : Routers) (message : RRequest)
    (h : lookupRouter routers (ObjectID.toString message.object) = none) :
    workerDispatch routers message =
      ({ id := message.id, arguments := [], error := some "unknown module" }, false) := by
  unfold workerDispatch
  rw [h]

/-- Witness for unknown_object_response on the empty registry. -/
theorem unknown_object_response_witness :
    workerDispatch [] fooRequest =
      ({ id := "r1", arguments := [], error := some "unknown module" }, false) :=
  unknown_object_response [] fooRequest rfl

/-- Claim C2: for every wellformed wire value the codec round-trips: the
blob produced by encoding v decodes back to v with nothing left over, and a
value appended to a Tuple with add decodes back through at, at its index and
at its own type. -/
theorem codec_roundtrip (v : Value) (h : Value.wf v = true) :
    decodeValue (encodeValue v) = some (v, []) ∧
    ∀ t : Tuple, Tuple.atIndex (Tuple.add t (SerVal.good v)).1 t.length (Value.ty v) =
      Except.ok v := by
  have hrt : decodeValue (encodeValue v) = some (v, []) := by
    have h2 := decodeValue_encodeValue v [] h
    simpa using h2
  refine ⟨hrt, ?_⟩
  intro t
  have hadd : (Tuple.add t (SerVal.good v)).1 = t ++ [encodeValue v] := rfl
  rw [hadd]
  unfold Tuple.atIndex
  rw [if_neg (by simp)]
  have hget : (t ++ [encodeValue v]).getD t.length [] = encodeValue v := by
    simp [List.getD]
  rw [hget, hrt]
  simp

/-- Witness for codec_roundtrip on a two-field record with one optional
field absent (encoded as nil). -/
theorem codec_roundtrip_witness :
    Value.wf sampleRecord = true ∧
    Tuple.atIndex (Tuple.add [] (SerVal.good sampleRecord)).1 0 (Value.ty sampleRecord) =
      Except.ok sampleRecord :=
  ⟨by decide, by
    have h := (codec_roundtrip sampleRecord (by decide)).2 []
    simpa using h⟩

/-- Claim C3: converting a handler result Ok(x) with encodable x into an
Output yields no error and data equal to encode(x); converting Err(e) yields
empty data and a CallError whose message is the display string of e. -/
theorem output_from_result_spec (x : SerVal) (d : List Nat) (e : String) :
    (encode x = Except.ok d →
      Output.fromResult (Except.ok x) = some { data := d, error := none }) ∧
    Output.fromResult (Except.error e) =
      some { data := [], error := some { message := e } } := by
  constructor
  · intro hx
    simp only [Output.fromResult]
    rw [hx]
  · rfl

/-- Witness for output_from_result_spec at a nil return and a failing
handler. -/
theorem output_from_result_spec_witness :
    Output.fromResult (Except.ok (SerVal.good (Value.scalar Scalar.snil))) =
      some { data := [0xc0], error := none } ∧
    Output.fromResult (Except.error "boom") =
      some { data := [], error := some { message := "boom" } } :=
  ⟨(output_from_result_spec (SerVal.good (Value.scalar Scalar.snil)) [0xc0] "boom").1 rfl,
    (output_from_result_spec (SerVal.good (Value.scalar Scalar.snil)) [0xc0] "boom").2⟩

/-- Claim C4 (code bug): Server::new asserts workers > 1, so a worker count
of 1 is rejected, although both the spec and the assert's own message
"workers must be at least 1" accept it; 0 is rejected by both. -/
theorem server_new_workers_check :
    serverNewWorkersOk 1 = false ∧ specWorkersOk 1 = true ∧
    serverNewWorkersOk 0 = false ∧ specWorkersOk 0 = false ∧
    serverNewWorkersOk 2 = true := by
  decide

/-- Claim C5, counterexample: a server constructed with 2 workers spawns
exactly one worker task, not two. -/
theorem run_spawn_counterexample :
    (runSpawnedWorkers 2).length = 1 ∧ (runSpawnedWorkers 2).length ≠ 2 := by
  decide

/-- Claim C5 as amended: a server whose worker count passes construction
spawns exactly workers - 1 execution units (hence at least one). -/
theorem run_spawn_count (w : Nat) (h : serverNewWorkersOk w = true) :
    (runSpawnedWorkers w).length = w - 1 ∧ 1 ≤ (runSpawnedWorkers w).length := by
  have hw : 1 < w := by simpa [serverNewWorkersOk] using h
  refine ⟨by simp [runSpawnedWorkers], ?_⟩
  simp only [runSpawnedWorkers, List.length_range]
  omega

/-- Witness for run_spawn_count at worker count 3. -/
theorem run_spawn_count_witness :
    (runSpawnedWorkers 3).length = 2 ∧ 1 ≤ (runSpawnedWorkers 3).length := by
  have h := run_spawn_count 3 (by decide)
  simpa using h

/-- Claim C6: at past the end fails with ArgumentOutOfRange(i); inside the
bounds a decoded value of the wrong type is a local Encoding error; and the
result at an index is determined by the blob stored at that index alone, so
a mismatch at one index leaves every other entry independently decodable. -/
theorem tuple_at_spec (t : Tuple) (i : Nat) (ty : Ty) :
    (i ≥ t.length → Tuple.atIndex t i ty = Except.error (Error.ArgumentOutOfRange i)) ∧
    (∀ v r, i < t.length → decodeValue (t.getD i []) = some (v, r) → Value.ty v ≠ ty →
      Tuple.atIndex t i ty = Except.error (Error.Encoding "type mismatch")) ∧
    (∀ t2 : Tuple, t2.length = t.length → t2.getD i [] = t.getD i [] →
      Tuple.atIndex t2 i ty = Tuple.atIndex t i ty) := by
  refine ⟨?_, ?_, ?_⟩
  · intro hge
    unfold Tuple.atIndex
    rw [if_pos hge]
  · intro v r hlt hdec hty
    unfold Tuple.atIndex
    rw [if_neg (by omega), hdec]
    simp [hty]
  · intro t2 hlen hget
    unfold Tuple.atIndex
    rw [hlen, hget]

/-- Witness for tuple_at_spec: out-of-range index 1 on a one-entry tuple,
and a type mismatch (nil blob read as int) at index 0. -/
theorem tuple_at_spec_witness :
    Tuple.atIndex [[0xc0]] 1 Ty.tint = Except.error (Error.ArgumentOutOfRange 1) ∧
    Tuple.atIndex [[0xc0]] 0 Ty.tint = Except.error (Error.Encoding "type mismatch") :=
  ⟨(tuple_at_spec [[0xc0]] 1 Ty.tint).1 (by decide),
    (tuple_at_spec [[0xc0]] 0 Ty.tint).2.1 (Value.scalar Scalar.snil) [] (by decide)
      (by decide) (by decide)⟩

/-- Claim C7: the worker pushes the reply onto the list key named by the
response id and, right after a successful push, expires that key with
RESPONSE_TTL = 300 seconds; a failed push issues no expiry. -/
theorem response_ttl_spec (respId : String) (data : List Nat) :
    RESPONSE_TTL = 300 ∧
    workerReply respId data true =
      [BrokerCmd.rpush respId data, BrokerCmd.expire respId 300] ∧
    workerReply respId data false = [BrokerCmd.rpush respId data] := by
  refine ⟨by decide, ?_, rfl⟩
  simp [workerReply, RESPONSE_TTL]

/-- Claim C8: in every reachable pool state, when all execution units are
busy the dispatch loop cannot issue a blocking pop; a pop is only possible
when some unit has announced availability; and the number of simultaneously
busy units never exceeds the pool size. -/
theorem worker_pool_backpressure (W : Nat) (s : PoolState W) (h : PoolReachable W s) :
    ((∀ i, s.worker i = WState.busy) → ¬ popEnabled s) ∧
    (popEnabled s → ∃ i, s.worker i = WState.announced) ∧
    busyCount s ≤ W := by
  have hinv := holdingInv_reachable h
  refine ⟨?_, ?_, ?_⟩
  · rintro hall ⟨i, hi⟩
    have ha := hinv i hi
    rw [hall i] at ha
    exact absurd ha (by decide)
  · rintro ⟨i, hi⟩
    exact ⟨i, hinv i hi⟩
  · calc busyCount s ≤ (Finset.univ : Finset (Fin W)).card := Finset.card_filter_le _ _
      _ = W := by simp

/-- Witness for worker_pool_backpressure at the start state of a pool of 1. -/
theorem worker_pool_backpressure_witness :
    ((∀ i, (PoolState.start 1).worker i = WState.busy) → ¬ popEnabled (PoolState.start 1)) ∧
    (popEnabled (PoolState.start 1) → ∃ i, (PoolState.start 1).worker i = WState.announced) ∧
    busyCount (PoolState.start 1) ≤ 1 :=
  worker_pool_backpressure 1 (PoolState.start 1) Relation.ReflTransGen.refl

/-- Claim C9: Tuple::add is atomic on failure: a failing encode returns the
Encoding error and leaves the tuple unchanged, while a successful encode
appends exactly the one new blob, growing the length by one. -/
theorem tuple_add_atomic (t : Tuple) (o : SerVal) :
    (∀ e, encode o = Except.error e → Tuple.add t o = (t, some e) ∧
      ∃ m, e = Error.Encoding m) ∧
    (∀ b, encode o = Except.ok b → Tuple.add t o = (t ++ [b], none) ∧
      (Tuple.add t o).1.length = t.length + 1) := by
  constructor
  · intro e he
    constructor
    · unfold Tuple.add
      rw [he]
    · cases o with
      | good v => simp [encode, serialize] at he
      | bad m =>
        simp only [encode, serialize] at he
        exact ⟨m, (Except.error.inj he).symm⟩
  · intro b hb
    constructor
    · unfold Tuple.add
      rw [hb]
    · unfold Tuple.add
      rw [hb]
      simp

/-- Witness for tuple_add_atomic on a failing and a succeeding encode. -/
theorem tuple_add_atomic_witness :
    Tuple.add [] (SerVal.bad "boom") = (([] : Tuple), some (Error.Encoding "boom")) ∧
    Tuple.add [] (SerVal.good (Value.scalar Scalar.snil)) = ([[0xc0]], none) :=
  ⟨((tuple_add_atomic [] (SerVal.bad "boom")).1 (Error.Encoding "boom") rfl).1, by
    have h := ((tuple_add_atomic [] (SerVal.good (Value.scalar Scalar.snil))).2 [0xc0] rfl).1
    simpa using h⟩

/-- Claim C10: the Output conversion unwraps encode, so it panics exactly
when encoding the Ok value fails; for an encodable Ok value and for every
Err value it produces an Output. -/
theorem output_from_result_panic (x : SerVal) (er : Error) (e : String) :
    (encode x = Except.error er → Output.fromResult (Except.ok x) = none) ∧
    ((∃ d, encode x = Except.ok d) → (Output.fromResult (Except.ok x)).isSome = true) ∧
    (Output.fromResult (Except.error e)).isSome = true := by
  refine ⟨?_, ?_, rfl⟩
  · intro hx
    simp only [Output.fromResult]
    rw [hx]
  · rintro ⟨d, hd⟩
    simp only [Output.fromResult]
    rw [hd]
    rfl

/-- Witness for output_from_result_panic on a value whose encoding fails and
one whose encoding succeeds. -/
theorem output_from_result_panic_witness :
    Output.fromResult (Except.ok (SerVal.bad "boom")) = none ∧
    (Output.fromResult (Except.ok (SerVal.good (Value.scalar Scalar.snil)))).isSome = true :=
  ⟨(output_from_result_panic (SerVal.bad "boom") (Error.Encoding "boom") "x").1 rfl,
    (output_from_result_panic (SerVal.good (Value.scalar Scalar.snil))
      (Error.Encoding "y") "x").2.1 ⟨[0xc0], rfl⟩⟩

end Rbus
